import Mathlib

/-!
Shallow embedding of the Shopify → Discovery catalog export pipeline
(`src/bloomreach_generics.py` and `src/bloomreach_products.py`) and proofs
about the claims of its specification.

JSON-like dynamic values are modelled by the inductive `Value`; Python
dictionaries are modelled as association lists with first-occurrence lookup
and in-place replacement (`aget`/`aset`), which matches the insertion-order
semantics of Python dicts.  Python `==` between the values that the mapped
claims compare (strings, lists, objects, null) is modelled by structural
equality on `Value`; Python's numeric coercions (`True == 1`) and dict
key-order-insensitive comparison are not exercised by any claim.  Exceptions
(`KeyError`, `TypeError`, `json.JSONDecodeError`, errors raised by transform
functions) are modelled by `Except Unit`.
-/

namespace CatalogExport

/-- A JSON-like dynamic value as manipulated by the Python source.
JSON numbers are modelled as integers; the catalog's fractional quantities
(prices) travel as strings in the source data and in every claim. -/
inductive Value where
  | VNull : Value
  | VBool : Bool → Value
  | VNum : Int → Value
  | VStr : String → Value
  | VList : List Value → Value
  | VObj : List (String × Value) → Value
deriving Repr

open Value

mutual

/-- Structural (decidable) equality on `Value`, the model of Python `==`
on the JSON-like data the program manipulates. -/
def decEqValue : (a b : Value) → Decidable (a = b)
  | VNull, VNull => isTrue rfl
  | VNull, VBool _ => isFalse (fun h => Value.noConfusion h)
  | VNull, VNum _ => isFalse (fun h => Value.noConfusion h)
  | VNull, VStr _ => isFalse (fun h => Value.noConfusion h)
  | VNull, VList _ => isFalse (fun h => Value.noConfusion h)
  | VNull, VObj _ => isFalse (fun h => Value.noConfusion h)
  | VBool _, VNull => isFalse (fun h => Value.noConfusion h)
  | VBool a, VBool b =>
      if h : a = b then isTrue (by rw [h]) else isFalse (fun e => h (Value.VBool.inj e))
  | VBool _, VNum _ => isFalse (fun h => Value.noConfusion h)
  | VBool _, VStr _ => isFalse (fun h => Value.noConfusion h)
  | VBool _, VList _ => isFalse (fun h => Value.noConfusion h)
  | VBool _, VObj _ => isFalse (fun h => Value.noConfusion h)
  | VNum _, VNull => isFalse (fun h => Value.noConfusion h)
  | VNum _, VBool _ => isFalse (fun h => Value.noConfusion h)
  | VNum a, VNum b =>
      if h : a = b then isTrue (by rw [h]) else isFalse (fun e => h (Value.VNum.inj e))
  | VNum _, VStr _ => isFalse (fun h => Value.noConfusion h)
  | VNum _, VList _ => isFalse (fun h => Value.noConfusion h)
  | VNum _, VObj _ => isFalse (fun h => Value.noConfusion h)
  | VStr _, VNull => isFalse (fun h => Value.noConfusion h)
  | VStr _, VBool _ => isFalse (fun h => Value.noConfusion h)
  | VStr _, VNum _ => isFalse (fun h => Value.noConfusion h)
  | VStr a, VStr b =>
      if h : a = b then isTrue (by rw [h]) else isFalse (fun e => h (Value.VStr.inj e))
  | VStr _, VList _ => isFalse (fun h => Value.noConfusion h)
  | VStr _, VObj _ => isFalse (fun h => Value.noConfusion h)
  | VList _, VNull => isFalse (fun h => Value.noConfusion h)
  | VList _, VBool _ => isFalse (fun h => Value.noConfusion h)
  | VList _, VNum _ => isFalse (fun h => Value.noConfusion h)
  | VList _, VStr _ => isFalse (fun h => Value.noConfusion h)
  | VList xs, VList ys =>
      match decEqValueList xs ys with
      | isTrue h => isTrue (by rw [h])
      | isFalse h => isFalse (fun e => h (Value.VList.inj e))
  | VList _, VObj _ => isFalse (fun h => Value.noConfusion h)
  | VObj _, VNull => isFalse (fun h => Value.noConfusion h)
  | VObj _, VBool _ => isFalse (fun h => Value.noConfusion h)
  | VObj _, VNum _ => isFalse (fun h => Value.noConfusion h)
  | VObj _, VStr _ => isFalse (fun h => Value.noConfusion h)
  | VObj _, VList _ => isFalse (fun h => Value.noConfusion h)
  | VObj fs, VObj gs =>
      match decEqValueObj fs gs with
      | isTrue h => isTrue (by rw [h])
      | isFalse h => isFalse (fun e => h (Value.VObj.inj e))

/-- Decidable equality of lists of values. -/
def decEqValueList : (xs ys : List Value) → Decidable (xs = ys)
  | [], [] => isTrue rfl
  | [], _ :: _ => isFalse (fun h => List.noConfusion h)
  | _ :: _, [] => isFalse (fun h => List.noConfusion h)
  | x :: xs, y :: ys =>
      match decEqValue x y, decEqValueList xs ys with
      | isTrue h1, isTrue h2 => isTrue (by rw [h1, h2])
      | isFalse h1, _ => isFalse (fun e => h1 (List.cons.inj e).1)
      | _, isFalse h2 => isFalse (fun e => h2 (List.cons.inj e).2)

/-- Decidable equality of object field lists. -/
def decEqValueObj : (fs gs : List (String × Value)) → Decidable (fs = gs)
  | [], [] => isTrue rfl
  | [], _ :: _ => isFalse (fun h => List.noConfusion h)
  | _ :: _, [] => isFalse (fun h => List.noConfusion h)
  | (k, v) :: fs, (l, w) :: gs =>
      if hk : k = l then
        match decEqValue v w, decEqValueObj fs gs with
        | isTrue hv, isTrue hg => isTrue (by rw [hk, hv, hg])
        | isFalse hv, _ =>
            isFalse (fun e => hv (congrArg Prod.snd (List.cons.inj e).1))
        | _, isFalse hg => isFalse (fun e => hg (List.cons.inj e).2)
      else isFalse (fun e => hk (congrArg Prod.fst (List.cons.inj e).1))

end

instance : DecidableEq Value := decEqValue

/-- Python truthiness (`bool(x)`) of a `Value`. -/
def truthy : Value → Bool
  | VNull => false
  | VBool b => b
  | VNum n => n != 0
  | VStr s => s != ""
  | VList xs => !xs.isEmpty
  | VObj fs => !fs.isEmpty

/-- A Python dict with string keys, in insertion order. -/
abbrev AttrMap := List (String × Value)

/-- Dict lookup (`m[k]` when the key exists): first entry with the key. -/
def aget : AttrMap → String → Option Value
  | [], _ => none
  | (k', v) :: rest, k => if k' = k then some v else aget rest k

/-- Dict assignment `m[k] = v`: replaces the value in place if the key is
present (keeping its position, as Python dicts do), else appends. -/
def aset : AttrMap → String → Value → AttrMap
  | [], k, v => [(k, v)]
  | (k', v') :: rest, k, v =>
      if k' = k then (k, v) :: rest else (k', v') :: aset rest k v

/-- Python `k in m` for a dict. -/
def ahas (m : AttrMap) (k : String) : Bool := (aget m k).isSome

/-- Tests whether `needle` occurs as a substring of `s` (Python `needle in s`). -/
def strContains (needle s : String) : Bool := 2 ≤ (s.splitOn needle).length

/-- Python `k in v` for a general value: key membership for dicts, substring
for strings, element membership for lists; `TypeError` otherwise. -/
def pyIn (needle : String) (v : Value) : Except Unit Bool :=
  match v with
  | VObj fs => .ok (ahas fs needle)
  | VStr s => .ok (strContains needle s)
  | VList xs => .ok (decide (VStr needle ∈ xs))
  | _ => .error ()

/-- First-occurrence-preserving de-duplication, the model of the source's
`seen = set(); [x for x in xs if not (x in seen or seen.add(x))]` idiom
(`bloomreach_products.py` lines 75-78 and 105-107).  Python set membership
is modelled by structural equality; the labels de-duplicated by the source
are hashable scalars. -/
def dedupAux (seen : List Value) : List Value → List Value
  | [] => []
  | x :: xs => if x ∈ seen then dedupAux seen xs else x :: dedupAux (x :: seen) xs

/-- De-duplicate a list, keeping the first occurrence of each element. -/
def dedupVals (xs : List Value) : List Value := dedupAux [] xs

/-- Python `v[k]` for a general value: dict indexing, `KeyError` when the
key is absent, `TypeError` on non-dicts. -/
def pyItem (v : Value) (k : String) : Except Unit Value :=
  match v with
  | VObj fs =>
      match aget fs k with
      | some x => .ok x
      | none => .error ()
  | _ => .error ()

/-- Python `m[k]` for an attribute map: `KeyError` when absent. -/
def mapItem (m : AttrMap) (k : String) : Except Unit Value :=
  match aget m k with
  | some v => .ok v
  | none => .error ()

/-- Python `v.get(k, d)`: `TypeError` (`AttributeError`) on non-dicts. -/
def dictGet (v : Value) (k : String) (d : Value) : Except Unit Value :=
  match v with
  | VObj fs => .ok ((aget fs k).getD d)
  | _ => .error ()

/-- Python `isinstance(v, dict)`. -/
def isDict : Value → Bool
  | VObj _ => true
  | _ => false

/-- Iteration `for x in v`.  Only list iteration is exercised by the source
data shapes the claims quantify over; iterating any other value is modelled
as a dynamic error. -/
def asList : Value → Except Unit (List Value)
  | VList xs => .ok xs
  | _ => .error ()

/-- Python `len(v)` for the values the source takes lengths of. -/
def pyLen : Value → Except Unit Nat
  | VList xs => .ok xs.length
  | VStr s => .ok s.length
  | VObj fs => .ok fs.length
  | _ => .error ()

/-! ### Label collection (`bloomreach_products.py`)

Both `merge_labels` (lines 46-78) and the product-level label block of
`create_product` (lines 96-108) collect label values the same way: a string
value is split on commas, stripped, and empty pieces dropped; a list value
contributes its truthy elements; any other value (including an absent key,
Python `None`) contributes nothing. -/

/-- Labels contributed by one source value (`val` in the source). -/
def labelsFromVal : Option Value → List Value
  | some (VStr s) =>
      (((s.splitOn ",").map String.trim).filter (fun p => p ≠ "")).map VStr
  | some (VList xs) => xs.filter (fun v => truthy v)
  | _ => []

/-- The starting `existing_labels` of `merge_labels` (lines 51-57): the
current `new_key` value, defaulting to `[]`; a string is wrapped whole, a
list is used as-is, anything else is replaced by `[]`. -/
def existingLabels (attributes : AttrMap) (new_key : String) : List Value :=
  match (aget attributes new_key).getD (VList []) with
  | VStr s => [VStr s]
  | VList xs => xs
  | _ => []

/-- The values appended by `merge_labels` (lines 59-73): only
`spvm.custom.additional_label` when `new_key` is already present, both it
and `spvm.custom.product_labels_values` (in that order) when it is not. -/
def additionLabels (attributes : AttrMap) (new_key : String) : List Value :=
  if ahas attributes new_key then
    labelsFromVal (aget attributes "spvm.custom.additional_label")
  else
    labelsFromVal (aget attributes "spvm.custom.additional_label") ++
      labelsFromVal (aget attributes "spvm.custom.product_labels_values")

/-- Function `merge_labels(attributes, new_key)` of `bloomreach_products.py`
(lines 46-78): the extended `existing_labels` list is de-duplicated
preserving first-occurrence order and stored under `new_key` only when
non-empty. -/
def merge_labels (attributes : AttrMap) (new_key : String) : AttrMap :=
  let merged := existingLabels attributes new_key ++ additionLabels attributes new_key
  if merged = [] then attributes
  else aset attributes new_key (VList (dedupVals merged))

/-! ### The mapping engines

A mapping rule is the 4-tuple `[sourceKey, targetKey, preserveSource,
transform]` of the source; a transform that raises is modelled as returning
`Except.error`. -/

/-- A mapping rule `[sourceKey, targetKey, preserveSource, transform]`. -/
abbrev Mapping := String × String × Nat × (Value → Except Unit Value)

/-- Function `apply_mappings(attributes, mappings)` of `bloomreach_products.py`
(lines 25-43).  Rules whose `sourceKey` is absent are skipped; the transform
is applied with NO exception handler, so a raising transform propagates
(modelled by the `Except.error` result); on success the transformed value is
written under `targetKey` and, when the preserve flag equals 1, the original
value is rewritten under `sourceKey` (or under `sourceKey + "_key"` when the
two keys coincide). -/
def apply_mappings (attributes : AttrMap) : List Mapping → Except Unit AttrMap
  | [] => .ok attributes
  | (source_key, target_key, save_original_flag, transform_fn) :: rest =>
      match aget attributes source_key with
      | none => apply_mappings attributes rest
      | some original_value =>
          match transform_fn original_value with
          | .error e => .error e
          | .ok transformed_value =>
              let a1 := aset attributes target_key transformed_value
              let a2 :=
                if save_original_flag = 1 then
                  if source_key ≠ target_key then aset a1 source_key original_value
                  else aset a1 (source_key ++ "_key") original_value
                else a1
              apply_mappings a2 rest

/-- Table `PRODUCT_MAPPINGS` of `bloomreach_products.py` (lines 9-12): shipped
empty in the source. -/
def PRODUCT_MAPPINGS : List Mapping := []

/-- One iteration of the rule loop inside `create_attributes` of
`bloomreach_generics.py` (lines 574-586 for metafields, identically
lines 599-611 for plain fields).  `attribute_name`/`value` are the
namespaced key and value currently being added; when the rule's
`sourceKey` matches, the transform runs inside `try`: on success the
transformed value goes under `targetKey` with the preserve-source
bookkeeping, on any exception `targetKey` is set to `None`; either way the
attribute counts as matched (`flag_found`). -/
def create_attributes_rule_step (attribute_name : String) (value : Value)
    (acc : AttrMap × Bool) (rule : Mapping) : AttrMap × Bool :=
  let (source_key, target_key, save_original, transform) := rule
  if attribute_name = source_key then
    match transform value with
    | .ok transformed =>
        let a1 := aset acc.1 target_key transformed
        let a2 :=
          if save_original ≠ 0 then
            if source_key ≠ target_key then aset a1 source_key value
            else aset a1 (source_key ++ "_key") value
          else a1
        (a2, true)
    | .error _ => (aset acc.1 target_key VNull, true)
  else acc

/-- The full rule loop of `create_attributes` for one attribute
(`bloomreach_generics.py` lines 573-588): every rule of the table is tried
in order, and if none matched the attribute passes through under its
namespaced name. -/
def create_attributes_apply_rules (attributes : AttrMap) (attribute_name : String)
    (value : Value) (rules : List Mapping) : AttrMap :=
  let r := rules.foldl (create_attributes_rule_step attribute_name value)
    (attributes, false)
  if r.2 then r.1 else aset r.1 attribute_name value

/-! ### Identifier resolution (`bloomreach_generics.py` lines 511-527) -/

/-- The identifier list: the default `["id"]`, or the comma-split of the
configured string (`identifiers.split(",")`, never empty). -/
def identList : Option String → List String
  | none => ["id"]
  | some s => s.splitOn ","

/-- The loop of `create_id`: the first configured identifier that is present
and truthy wins and breaks the loop; on every non-matching iteration the
running result falls back to `shopify_object["id"]` whenever the key `id`
is present (regardless of its truthiness). -/
def create_id_go (shopify_object : AttrMap) (acc : Value) : List String → Value
  | [] => acc
  | identifier :: rest =>
      match aget shopify_object identifier with
      | some v =>
          if truthy v then v
          else
            match aget shopify_object "id" with
            | some w => create_id_go shopify_object w rest
            | none => create_id_go shopify_object acc rest
      | none =>
          match aget shopify_object "id" with
          | some w => create_id_go shopify_object w rest
          | none => create_id_go shopify_object acc rest

/-- Function `create_id(shopify_object, identifiers)` of `bloomreach_generics.py`
(lines 511-527), starting from the sentinel `"NOIDENTIFIERFOUND"`. -/
def create_id (shopify_object : AttrMap) (identifiers : Option String) : Value :=
  create_id_go shopify_object (VStr "NOIDENTIFIERFOUND") (identList identifiers)

/-! ### Reference resolution (`bloomreach_generics.py`)

All three resolver functions slice the identifier list with
`for i in range(0, len(gid_list), CHUNK_SIZE): chunk = gid_list[i:i+CHUNK_SIZE]`
where `CHUNK_SIZE = 100`, and per chunk run
`json.loads(graphql_client.execute(query, {"ids": chunk}))`.  The network
call composed with the JSON decode is modelled by an oracle
`List Value → Except Unit Value` whose `Except.error` is exactly a
`json.JSONDecodeError`; everything after the decode is embedded from the
source.  The claims quantify over identifier *lists*, so the resolvers take
the already-parsed list (the source's parse-first of a string argument is
upstream of the chunk loop). -/

/-- The chunk sequence `[gid_list[0:100], gid_list[100:200], ...]` produced
by the slicing loop, computed with an explicit fuel so that it reduces by
kernel computation; `chunks100` below instantiates the fuel. -/
def chunksFuel : Nat → List Value → List (List Value)
  | _, [] => []
  | 0, _ :: _ => []
  | fuel + 1, x :: xs => (x :: xs).take 100 :: chunksFuel fuel ((x :: xs).drop 100)

/-- The chunks of size (at most) 100 of a list, in order. -/
def chunks100 (gid_list : List Value) : List (List Value) :=
  chunksFuel gid_list.length gid_list

/-- The oracle type: one graph query for one chunk, composed with the JSON
decode of its response. -/
abbrev QueryOracle := List Value → Except Unit Value

/-- Scan of a node's `fields` list shared by
`get_metaobject_labels_with_images` (lines 212-217) and
`get_image_urls_from_metaobjects` (lines 412-417): the running `label` is
overwritten by the `value` of every field whose `key` is `"label"` (no
break), and the running `image_url` by `reference.image.transformedSrc` of
every field with a truthy `reference` carrying a truthy `image`. -/
def scanFields (label image_url : Value) : List Value → Except Unit (Value × Value)
  | [] => .ok (label, image_url)
  | field :: rest => do
      let k ← dictGet field "key" VNull
      let label2 ←
        if k = VStr "label" then dictGet field "value" VNull else pure label
      let ref ← dictGet field "reference" VNull
      if truthy ref then
        let img ← dictGet ref "image" VNull
        if truthy img then
          let src ← dictGet img "transformedSrc" VNull
          scanFields label2 src rest
        else scanFields label2 image_url rest
      else scanFields label2 image_url rest

/-- Scan of a node's `fields` list in `get_metaobject_labels_only`
(lines 155-158): first field whose `key` is `"label"` wins and breaks. -/
def findLabel : List Value → Except Unit Value
  | [] => .ok VNull
  | field :: rest => do
      let k ← dictGet field "key" VNull
      if k = VStr "label" then dictGet field "value" VNull
      else findLabel rest

/-- Node loop of `get_metaobject_labels_only` (lines 150-161): falsy nodes
are skipped; a truthy label is appended to the running list. -/
def labelsOnlyNodes (label_list : List Value) : List Value → Except Unit (List Value)
  | [] => .ok label_list
  | node :: rest =>
      if truthy node then do
        let fieldsV ← dictGet node "fields" (VList [])
        let fields ← asList fieldsV
        let label ← findLabel fields
        if truthy label then labelsOnlyNodes (label_list ++ [label]) rest
        else labelsOnlyNodes label_list rest
      else labelsOnlyNodes label_list rest

/-- Chunk loop of `get_metaobject_labels_only` (lines 140-161): a chunk
whose response fails to decode is skipped (`except ...: continue`); a
decoded chunk contributes the labels of `result["data"]["nodes"]`. -/
def labelsOnlyChunks (oracle : QueryOracle) (label_list : List Value) :
    List (List Value) → Except Unit (List Value)
  | [] => .ok label_list
  | chunk :: rest =>
      match oracle chunk with
      | .error _ => labelsOnlyChunks oracle label_list rest
      | .ok result => do
          let dataV ← dictGet result "data" (VObj [])
          let nodesV ← dictGet dataV "nodes" (VList [])
          let nodes ← asList nodesV
          let label_list2 ← labelsOnlyNodes label_list nodes
          labelsOnlyChunks oracle label_list2 rest

/-- A label value as a Python string, for `", ".join(label_list)`. -/
def strOfLabel : Value → Except Unit String
  | VStr s => .ok s
  | _ => .error ()

/-- Function `get_metaobject_labels_only(gid_list, graphql_client)` of
`bloomreach_generics.py` (lines 117-163): the empty list short-circuits;
otherwise all chunk contributions are joined into a single comma-separated
string, or the empty list when nothing resolved. -/
def get_metaobject_labels_only (oracle : QueryOracle) (gid_list : List Value) :
    Except Unit (List Value) :=
  if gid_list = [] then .ok [] else do
    let label_list ← labelsOnlyChunks oracle [] (chunks100 gid_list)
    if label_list = [] then .ok []
    else do
      let pieces ← label_list.mapM strOfLabel
      .ok [VStr (String.intercalate ", " pieces)]

/-- Entry insertion into the `enriched_items` dict keyed by label
(`enriched_items[label] = image_url`, last image per label wins while the
key keeps its first position, as in a Python dict). -/
def vset : List (Value × Value) → Value → Value → List (Value × Value)
  | [], k, v => [(k, v)]
  | (k', v') :: rest, k, v =>
      if k' = k then (k, v) :: rest else (k', v') :: vset rest k v

/-- Node loop of `get_metaobject_labels_with_images` (lines 205-220). -/
def withImagesNodes (enriched_items : List (Value × Value)) :
    List Value → Except Unit (List (Value × Value))
  | [] => .ok enriched_items
  | node :: rest =>
      if truthy node then do
        let fieldsV ← dictGet node "fields" (VList [])
        let fields ← asList fieldsV
        let lp ← scanFields VNull VNull fields
        if truthy lp.1 && truthy lp.2 then
          withImagesNodes (vset enriched_items lp.1 lp.2) rest
        else withImagesNodes enriched_items rest
      else withImagesNodes enriched_items rest

/-- Chunk loop of `get_metaobject_labels_with_images` (lines 195-220): a
chunk whose response fails to decode is skipped (`except ...: continue`). -/
def withImagesChunks (oracle : QueryOracle) (enriched_items : List (Value × Value)) :
    List (List Value) → Except Unit (List (Value × Value))
  | [] => .ok enriched_items
  | chunk :: rest =>
      match oracle chunk with
      | .error _ => withImagesChunks oracle enriched_items rest
      | .ok result => do
          let dataV ← dictGet result "data" (VObj [])
          let nodesV ← dictGet dataV "nodes" (VList [])
          let nodes ← asList nodesV
          let enriched2 ← withImagesNodes enriched_items nodes
          withImagesChunks oracle enriched2 rest

/-- Function `get_metaobject_labels_with_images(gid_list, graphql_client)` of
`bloomreach_generics.py` (lines 165-222), modelled as returning the
label → image-url mapping that the source serializes with `json.dumps` at
its return (the empty-input early return `"{}"` is the serialization of the
empty mapping). -/
def get_metaobject_labels_with_images (oracle : QueryOracle)
    (gid_list : List Value) : Except Unit (List (Value × Value)) :=
  if gid_list = [] then .ok []
  else withImagesChunks oracle [] (chunks100 gid_list)

/-- Node loop of `get_image_urls_from_metaobjects` (lines 405-426): nodes
with a truthy label and image append `{name, imageUrl}` records, nodes with
a truthy label but no image append the bare label to the fallback list. -/
def imageUrlsNodes (results_with_images labels_without_images : List Value) :
    List Value → Except Unit (List Value × List Value)
  | [] => .ok (results_with_images, labels_without_images)
  | node :: rest =>
      if truthy node then do
        let fieldsV ← dictGet node "fields" (VList [])
        let fields ← asList fieldsV
        let lp ← scanFields VNull VNull fields
        if truthy lp.1 then
          if truthy lp.2 then
            imageUrlsNodes
              (results_with_images ++ [VObj [("name", lp.1), ("imageUrl", lp.2)]])
              labels_without_images rest
          else imageUrlsNodes results_with_images (labels_without_images ++ [lp.1]) rest
        else imageUrlsNodes results_with_images labels_without_images rest
      else imageUrlsNodes results_with_images labels_without_images rest

/-- Chunk loop of `get_image_urls_from_metaobjects` (lines 392-426): a chunk
whose response fails to decode RE-RAISES the decode error
(`except json.JSONDecodeError as e: raise e`, line 398-399), aborting the
whole call; a decoded non-dict response is skipped instead. -/
def imageUrlsChunks (oracle : QueryOracle)
    (results_with_images labels_without_images : List Value) :
    List (List Value) → Except Unit (List Value × List Value)
  | [] => .ok (results_with_images, labels_without_images)
  | chunk :: rest =>
      match oracle chunk with
      | .error e => .error e
      | .ok result =>
          if isDict result then do
            let dataV ← dictGet result "data" (VObj [])
            let nodesV ← dictGet dataV "nodes" (VList [])
            let nodes ← asList nodesV
            let st ← imageUrlsNodes results_with_images labels_without_images nodes
            imageUrlsChunks oracle st.1 st.2 rest
          else imageUrlsChunks oracle results_with_images labels_without_images rest

/-- Function `get_image_urls_from_metaobjects(gid_list, graphql_client)` of
`bloomreach_generics.py` (lines 364-432): records with images win over the
label-only fallback list; the two result kinds are mutually exclusive. -/
def get_image_urls_from_metaobjects (oracle : QueryOracle)
    (gid_list : List Value) : Except Unit (List Value) :=
  if gid_list = [] then .ok [] else do
    let st ← imageUrlsChunks oracle [] [] (chunks100 gid_list)
    .ok (if st.1 ≠ [] then st.1 else st.2)

/-! ### Catalog-specific derivation (`create_product` of
`bloomreach_products.py`, lines 81-174)

The variant loop body (lines 128-172) starts from a copy of the input
variant attributes (`out_va = variant["attributes"].copy()`) and runs the
price, options, availability, image and label blocks in order, each reading
the input attributes `in_va` and writing the output `out_va` (the label
block reads `out_va` itself). -/

/-- The fixed fallback image URL of `bloomreach_products.py`
(lines 119 and 167). -/
def placeholder_url : String :=
  "https://cdn.shopify.com/s/files/1/0947/0545/1302/files/No_preview_available_couch_syp8ad_ba7c62c6-ebed-4a28-861e-ac28a2b863f2.png?v=1754993946"

/-- Price block (lines 133-141): a present and truthy `sv.compareAtPrice`
becomes `price`, with `sale_price := sv.price` when the two differ; an
absent or falsy `sv.compareAtPrice` yields `price := sv.price` alone.
Reading `in_va["sv.price"]` raises `KeyError` when absent. -/
def priceBlock (in_va out_va : AttrMap) : Except Unit AttrMap :=
  match aget in_va "sv.compareAtPrice" with
  | some c =>
      if truthy c then do
        let p ← mapItem in_va "sv.price"
        if c = p then .ok (aset out_va "price" c)
        else .ok (aset (aset out_va "price" c) "sale_price" p)
      else do
        let p ← mapItem in_va "sv.price"
        .ok (aset out_va "price" p)
  | none => do
      let p ← mapItem in_va "sv.price"
      .ok (aset out_va "price" p)

/-- One `if` of the options loop (line 147 with `key = "Color"`,
`target = "color"`; line 149 with `key = "Size"`, `target = "size"`): when
the option has `name` and `value` entries and its name contains the
substring `key`, copy the option's value to `target`. -/
def optionStep (out_va : AttrMap) (option : Value) (key target : String) :
    Except Unit AttrMap := do
  let hasName ← pyIn "name" option
  if hasName then do
    let hasValue ← pyIn "value" option
    if hasValue then do
      let nm ← pyItem option "name"
      let isHit ← pyIn key nm
      if isHit then do
        let v ← pyItem option "value"
        pure (aset out_va target v)
      else pure out_va
    else pure out_va
  else pure out_va

/-- Inner loop of the options block (lines 146-150): an option with `name`
and `value` entries copies its value to `color` when the name contains the
substring `"Color"`, and to `size` when it contains `"Size"`. -/
def optionsLoop (out_va : AttrMap) : List Value → Except Unit AttrMap
  | [] => .ok out_va
  | option :: rest => do
      let out1 ← optionStep out_va option "Color" "color"
      let out2 ← optionStep out1 option "Size" "size"
      optionsLoop out2 rest

/-- Options block (lines 144-150): runs only when `sv.selectedOptions` is
present, truthy, and of positive length. -/
def optionsBlock (in_va out_va : AttrMap) : Except Unit AttrMap :=
  match aget in_va "sv.selectedOptions" with
  | none => .ok out_va
  | some so =>
      if truthy so then do
        let n ← pyLen so
        if 0 < n then do
          let options ← asList so
          optionsLoop out_va options
        else .ok out_va
      else .ok out_va

/-- Availability block (lines 152-158): `availability` is first set to
`False`, then to `True` on both branches; the falsy/absent branch
additionally stamps `sv.availableForSale := False`. -/
def availabilityBlock (in_va out_va : AttrMap) : AttrMap :=
  let out1 := aset out_va "availability" (VBool false)
  match aget in_va "sv.availableForSale" with
  | some v =>
      if truthy v then aset out1 "availability" (VBool true)
      else
        aset (aset out1 "availability" (VBool true)) "sv.availableForSale" (VBool false)
  | none =>
      aset (aset out1 "availability" (VBool true)) "sv.availableForSale" (VBool false)

/-- Image block (lines 160-167): runs only when `sv.image` is present and
truthy; then a present and truthy `url` entry becomes `thumb_image`, and
otherwise the fixed placeholder is substituted.  When `sv.image` is absent
or falsy, nothing is written. -/
def variantImageBlock (in_va out_va : AttrMap) : Except Unit AttrMap :=
  match aget in_va "sv.image" with
  | none => .ok out_va
  | some img =>
      if truthy img then do
        let hasUrl ← pyIn "url" img
        if hasUrl then do
          let u ← pyItem img "url"
          if truthy u then .ok (aset out_va "thumb_image" u)
          else .ok (aset out_va "thumb_image" (VStr placeholder_url))
        else .ok (aset out_va "thumb_image" (VStr placeholder_url))
      else .ok out_va

/-- The variant loop body of `create_product` (lines 128-172): price,
options, availability, image, then `merge_labels(out_va, "labels")` on the
accumulated output attributes. -/
def create_product_variant_attributes (in_va : AttrMap) : Except Unit AttrMap := do
  let out1 ← priceBlock in_va in_va
  let out2 ← optionsBlock in_va out1
  let out3 := availabilityBlock in_va out2
  let out4 ← variantImageBlock in_va out3
  .ok (merge_labels out4 "labels")

/-- First product-level thumb block (lines 111-119): a present, truthy
`sp.featuredImage` with a present and truthy `url` wins; every other case
writes the placeholder. -/
def productThumbFallback (in_pa out_pa : AttrMap) : Except Unit AttrMap :=
  match aget in_pa "sp.featuredImage" with
  | none => .ok (aset out_pa "thumb_image" (VStr placeholder_url))
  | some img =>
      if truthy img then do
        let hasUrl ← pyIn "url" img
        if hasUrl then do
          let u ← pyItem img "url"
          if truthy u then .ok (aset out_pa "thumb_image" u)
          else .ok (aset out_pa "thumb_image" (VStr placeholder_url))
        else .ok (aset out_pa "thumb_image" (VStr placeholder_url))
      else .ok (aset out_pa "thumb_image" (VStr placeholder_url))

/-- Second product-level thumb block (lines 122-123): overwrites
`thumb_image` with `sp.featuredImage["url"]` whenever the image object is
present, truthy, and HAS a `url` entry — with no truthiness check on the
url value itself. -/
def productThumbOverwrite (in_pa out_pa : AttrMap) : Except Unit AttrMap :=
  match aget in_pa "sp.featuredImage" with
  | none => .ok out_pa
  | some img =>
      if truthy img then do
        let hasUrl ← pyIn "url" img
        if hasUrl then do
          let u ← pyItem img "url"
          .ok (aset out_pa "thumb_image" u)
        else .ok out_pa
      else .ok out_pa

/-- The string concatenation source `in_pa["sp.handle"]` of the product URL
(line 94): `KeyError` when absent, `TypeError` when not a string. -/
def handleStr : Option Value → Except Unit String
  | some (VStr h) => .ok h
  | _ => .error ()

/-- The product-attribute part of `create_product` (lines 82-125): a copy of
the input attributes, the shop URL built from `sp.handle` (a `KeyError` or
`TypeError` when absent or not a string), the always-merge-both label block
stored under `labels_new`, the two thumb blocks, then
`apply_mappings(out_pa, PRODUCT_MAPPINGS)`. -/
def create_product_attributes (shopify_url : String) (in_pa : AttrMap) :
    Except Unit AttrMap := do
  let handle ← handleStr (aget in_pa "sp.handle")
  let out1 := aset in_pa "url"
    (VStr ("https://" ++ shopify_url ++ "/products/" ++ handle))
  let labels_list :=
    labelsFromVal (aget in_pa "spvm.custom.additional_label") ++
      labelsFromVal (aget in_pa "spvm.custom.product_labels_values")
  let out2 :=
    if labels_list = [] then out1
    else aset out1 "labels_new" (VList (dedupVals labels_list))
  let out3 ← productThumbFallback in_pa out2
  let out4 ← productThumbOverwrite in_pa out3
  apply_mappings out4 PRODUCT_MAPPINGS

/-! ## Basic facts about the dict model -/

theorem aget_aset_self (m : AttrMap) (k : String) (v : Value) :
    aget (aset m k v) k = some v := by
  induction m with
  | nil => simp [aset, aget]
  | cons hd tl ih =>
      obtain ⟨k', v'⟩ := hd
      by_cases h : k' = k
      · simp [aset, h, aget]
      · simp [aset, h, aget, ih]

theorem aget_aset_ne (m : AttrMap) (k k' : String) (v : Value) (h : k' ≠ k) :
    aget (aset m k v) k' = aget m k' := by
  induction m with
  | nil => simp [aset, aget, Ne.symm h]
  | cons hd tl ih =>
      obtain ⟨k0, v0⟩ := hd
      by_cases h0 : k0 = k
      · subst h0
        simp [aset, aget, Ne.symm h]
      · simp [aset, aget, h0, ih]

theorem aset_aset (m : AttrMap) (k : String) (v w : Value) :
    aset (aset m k v) k w = aset m k w := by
  induction m with
  | nil => simp [aset]
  | cons hd tl ih =>
      obtain ⟨k0, v0⟩ := hd
      by_cases h0 : k0 = k
      · simp [aset, h0]
      · simp [aset, h0, ih]

theorem ahas_aset_self (m : AttrMap) (k : String) (v : Value) :
    ahas (aset m k v) k = true := by
  simp [ahas, aget_aset_self]

theorem ahas_aset_ne (m : AttrMap) (k k' : String) (v : Value) (h : k' ≠ k) :
    ahas (aset m k v) k' = ahas m k' := by
  simp [ahas, aget_aset_ne m k k' v h]

theorem ne_append_key (s : String) : s ≠ s ++ "_key" := by
  intro h
  have h1 := congrArg String.length h
  rw [String.length_append] at h1
  have h2 : "_key".length = 4 := rfl
  omega

/-! ## C1: preserve-source semantics of the mapping engines -/

/-- C1.  For every attribute map and every mapping rule with
`preserveSource = 1` whose `sourceKey` is present and whose transform
succeeds, in both mapping engines (`apply_mappings` of
`bloomreach_products.py` and the rule loop of `create_attributes` of
`bloomreach_generics.py`): when `sourceKey ≠ targetKey` the output contains
the original pre-transform value under `sourceKey` and the transformed
value under `targetKey`; when `sourceKey = targetKey` the output contains
the transformed value under `targetKey` and the original value under
`sourceKey ++ "_key"`. -/
theorem c1_preserve_source_semantics
    (m : AttrMap) (src tgt : String) (tf : Value → Except Unit Value)
    (v t : Value) (hsrc : aget m src = some v) (htf : tf v = .ok t) :
    (∀ m', apply_mappings m [(src, tgt, 1, tf)] = .ok m' →
      (src ≠ tgt → aget m' src = some v ∧ aget m' tgt = some t) ∧
      (src = tgt → aget m' tgt = some t ∧ aget m' (src ++ "_key") = some v)) ∧
    ((src ≠ tgt →
        aget (create_attributes_rule_step src v (m, false) (src, tgt, 1, tf)).1 src
          = some v ∧
        aget (create_attributes_rule_step src v (m, false) (src, tgt, 1, tf)).1 tgt
          = some t) ∧
     (src = tgt →
        aget (create_attributes_rule_step src v (m, false) (src, tgt, 1, tf)).1 tgt
          = some t ∧
        aget (create_attributes_rule_step src v (m, false) (src, tgt, 1, tf)).1
          (src ++ "_key") = some v)) := by
  constructor
  · intro m' hm
    constructor
    · intro hne
      have hm' : m' = aset (aset m tgt t) src v := by
        simp [apply_mappings, hsrc, htf, hne] at hm
        exact hm.symm
      subst hm'
      refine ⟨aget_aset_self _ _ _, ?_⟩
      rw [aget_aset_ne _ _ _ _ (Ne.symm hne)]
      exact aget_aset_self _ _ _
    · intro heq
      subst heq
      have hm' : m' = aset (aset m src t) (src ++ "_key") v := by
        simp [apply_mappings, hsrc, htf] at hm
        exact hm.symm
      subst hm'
      refine ⟨?_, aget_aset_self _ _ _⟩
      rw [aget_aset_ne _ _ _ _ (ne_append_key src)]
      exact aget_aset_self _ _ _
  · constructor
    · intro hne
      have hstep : (create_attributes_rule_step src v (m, false) (src, tgt, 1, tf)).1
          = aset (aset m tgt t) src v := by
        simp [create_attributes_rule_step, htf, hne]
      rw [hstep]
      refine ⟨aget_aset_self _ _ _, ?_⟩
      rw [aget_aset_ne _ _ _ _ (Ne.symm hne)]
      exact aget_aset_self _ _ _
    · intro heq
      subst heq
      have hstep : (create_attributes_rule_step src v (m, false) (src, src, 1, tf)).1
          = aset (aset m src t) (src ++ "_key") v := by
        simp [create_attributes_rule_step, htf]
      rw [hstep]
      refine ⟨?_, aget_aset_self _ _ _⟩
      rw [aget_aset_ne _ _ _ _ (ne_append_key src)]
      exact aget_aset_self _ _ _

/-- Witness for C1 at a concrete input: mapping `sv.sku → skuid` style rule
with the identity transform on the map `{a: "x"}`. -/
theorem c1_preserve_source_semantics_witness :
    aget [("a", VStr "x"), ("b", VStr "x")] "a" = some (VStr "x") ∧
    aget [("a", VStr "x"), ("b", VStr "x")] "b" = some (VStr "x") := by
  have h := c1_preserve_source_semantics [("a", VStr "x")] "a" "b"
    (fun x => Except.ok x) (VStr "x") (VStr "x") rfl rfl
  exact (h.1 [("a", VStr "x"), ("b", VStr "x")] rfl).1 (by decide)

/-! ## C2: behaviour on transform failure -/

/-- C2, counterexample.  In `apply_mappings` of `bloomreach_products.py`
(lines 25-43) the transform runs with no exception handler, so a raising
transform aborts the run instead of nulling the target key: the claim that
"a transform failure never aborts the run" fails on this engine. -/
theorem c2_counterexample :
    apply_mappings [("a", VStr "x")] [("a", "b", 0, fun _ => Except.error ())]
      = Except.error () := rfl

/-- C2 as amended.  In the rule loop of `create_attributes`
(`bloomreach_generics.py` lines 574-611) a raising transform is caught at
the rule level: the rule's `targetKey` is set to the null marker, the rule
counts as matched, and processing continues with the remaining rules
(`apply_mappings` of `bloomreach_products.py`, by contrast, propagates the
error — see the counterexample — though its configured table ships empty). -/
theorem c2_transform_failure_contained
    (attribute_name : String) (value : Value) (m : AttrMap) (f : Bool)
    (src tgt : String) (flag : Nat) (tf : Value → Except Unit Value)
    (rest : List Mapping)
    (hmatch : attribute_name = src) (hfail : tf value = .error ()) :
    create_attributes_rule_step attribute_name value (m, f) (src, tgt, flag, tf)
      = (aset m tgt VNull, true) ∧
    List.foldl (create_attributes_rule_step attribute_name value) (m, f)
        ((src, tgt, flag, tf) :: rest)
      = List.foldl (create_attributes_rule_step attribute_name value)
          (aset m tgt VNull, true) rest := by
  have hstep : create_attributes_rule_step attribute_name value (m, f)
      (src, tgt, flag, tf) = (aset m tgt VNull, true) := by
    simp [create_attributes_rule_step, hmatch, hfail]
  exact ⟨hstep, by rw [List.foldl_cons, hstep]⟩

/-- Witness for C2's amended theorem at a concrete failing transform. -/
theorem c2_transform_failure_contained_witness :
    create_attributes_rule_step "k" (VStr "v") ([], false)
      ("k", "t", 1, fun _ => Except.error ()) = ([("t", VNull)], true) := by
  have h := c2_transform_failure_contained "k" (VStr "v") [] false "k" "t" 1
    (fun _ => Except.error ()) [] rfl rfl
  exact h.1

/-! ## C7: identifier resolution -/

/-- C7, counterexample.  With the default identifier list `["id"]` and the
object `{id: ""}`, no listed field is present and non-empty, yet `create_id`
returns `""` (the `elif "id" in shopify_object` fallback of
`bloomreach_generics.py` lines 523-525), not the sentinel the claim
requires. -/
theorem c7_counterexample :
    create_id [("id", VStr "")] none = VStr "" ∧
    VStr "" ≠ VStr "NOIDENTIFIERFOUND" := ⟨rfl, by decide⟩

/-- The first listed field of the object that is present and truthy. -/
def firstTruthy (obj : AttrMap) : List String → Option Value
  | [] => none
  | i :: rest =>
      match aget obj i with
      | some v => if truthy v then some v else firstTruthy obj rest
      | none => firstTruthy obj rest

theorem create_id_go_spec (obj : AttrMap) :
    ∀ (ids : List String) (acc : Value), ids ≠ [] →
      create_id_go obj acc ids =
        match firstTruthy obj ids with
        | some v => v
        | none => (aget obj "id").getD acc := by
  intro ids
  induction ids with
  | nil => intro acc h; exact absurd rfl h
  | cons i rest ih =>
      intro acc _
      cases hrest : rest with
      | nil =>
          cases hv : aget obj i with
          | none =>
              cases hid : aget obj "id" <;>
                simp [create_id_go, firstTruthy, hv, hid]
          | some v =>
              by_cases ht : truthy v
              · simp [create_id_go, firstTruthy, hv, ht]
              · cases hid : aget obj "id" <;>
                  simp [create_id_go, firstTruthy, hv, ht, hid]
      | cons j rest2 =>
          rw [← hrest]
          have hne : rest ≠ [] := by rw [hrest]; exact List.cons_ne_nil _ _
          cases hv : aget obj i with
          | none =>
              cases hid : aget obj "id" with
              | none => simp [create_id_go, firstTruthy, hv, hid, ih _ hne]
              | some w => simp [create_id_go, firstTruthy, hv, hid, ih _ hne]
          | some v =>
              by_cases ht : truthy v
              · simp [create_id_go, firstTruthy, hv, ht]
              · cases hid : aget obj "id" with
                | none => simp [create_id_go, firstTruthy, hv, ht, hid, ih _ hne]
                | some w => simp [create_id_go, firstTruthy, hv, ht, hid, ih _ hne]

/-- C7 as amended.  The resolved id is the value of the first listed field
that is present and truthy; if no listed field matches, the resolved id is
the object's `id` value whenever the key `id` is present (regardless of its
truthiness), and only when `id` is also absent is it the sentinel
`"NOIDENTIFIERFOUND"`; resolution is total (it never fails). -/
theorem c7_identifier_resolution (obj : AttrMap) (identifiers : Option String)
    (h : identList identifiers ≠ []) :
    create_id obj identifiers =
      match firstTruthy obj (identList identifiers) with
      | some v => v
      | none => (aget obj "id").getD (VStr "NOIDENTIFIERFOUND") :=
  create_id_go_spec obj (identList identifiers) (VStr "NOIDENTIFIERFOUND") h

/-- Witness for C7's amended theorem at the default identifier list. -/
theorem c7_identifier_resolution_witness :
    create_id [("id", VStr "X")] none = VStr "X" := by
  have h := c7_identifier_resolution [("id", VStr "X")] none (by decide)
  simpa using h

/-! ## C8: reference-resolution chunking -/

theorem chunksFuel_length :
    ∀ (fuel : Nat) (l : List Value), l.length ≤ fuel →
      (chunksFuel fuel l).length = (l.length + 99) / 100 := by
  intro fuel
  induction fuel with
  | zero =>
      intro l h
      have h0 : l = [] := List.eq_nil_of_length_eq_zero (Nat.le_zero.mp h)
      subst h0; rfl
  | succ n ih =>
      intro l h
      cases l with
      | nil => rfl
      | cons x xs =>
          have hd : ((x :: xs).drop 100).length ≤ n := by
            rw [List.length_drop]
            simp only [List.length_cons] at h ⊢
            omega
          rw [chunksFuel, List.length_cons, ih _ hd, List.length_drop]
          simp only [List.length_cons]
          omega

theorem chunksFuel_flatten :
    ∀ (fuel : Nat) (l : List Value), l.length ≤ fuel →
      (chunksFuel fuel l).flatten = l := by
  intro fuel
  induction fuel with
  | zero =>
      intro l h
      have h0 : l = [] := List.eq_nil_of_length_eq_zero (Nat.le_zero.mp h)
      subst h0; rfl
  | succ n ih =>
      intro l h
      cases l with
      | nil => rfl
      | cons x xs =>
          have hd : ((x :: xs).drop 100).length ≤ n := by
            rw [List.length_drop]
            simp only [List.length_cons] at h ⊢
            omega
          rw [chunksFuel, List.flatten_cons, ih _ hd]
          exact List.take_append_drop _ _

theorem chunksFuel_mem :
    ∀ (fuel : Nat) (l : List Value) (c : List Value),
      c ∈ chunksFuel fuel l → c.length ≤ 100 := by
  intro fuel
  induction fuel with
  | zero =>
      intro l c hc
      cases l <;> simp [chunksFuel] at hc
  | succ n ih =>
      intro l c hc
      cases l with
      | nil => simp [chunksFuel] at hc
      | cons x xs =>
          rw [chunksFuel] at hc
          rcases List.mem_cons.mp hc with h1 | h2
          · subst h1
            rw [List.length_take]
            omega
          · exact ih _ _ h2

theorem chunks100_length (l : List Value) :
    (chunks100 l).length = (l.length + 99) / 100 :=
  chunksFuel_length _ _ (le_refl _)

theorem chunks100_flatten (l : List Value) : (chunks100 l).flatten = l :=
  chunksFuel_flatten _ _ (le_refl _)

theorem chunks100_mem (l c : List Value) (h : c ∈ chunks100 l) :
    c.length ≤ 100 :=
  chunksFuel_mem _ _ _ h

/-- C8.  Each reference-resolution function queries exactly the chunk
sequence `chunks100 l` of its identifier list (one query per chunk, in
order, by their definitions — restated as the final three conjuncts): that
sequence has exactly `⌈N/100⌉` entries (in `Nat` arithmetic,
`(N + 99) / 100`; for `N = 0` the functions short-circuit and issue no
query, and `⌈0/100⌉ = 0`), every chunk carries at most 100 identifiers, and
the chunks partition the identifier list in order. -/
theorem c8_reference_chunking (l : List Value) (oracle : QueryOracle) :
    ((chunks100 l).length = (l.length + 99) / 100) ∧
    ((chunks100 l).flatten = l) ∧
    (∀ c, c ∈ chunks100 l → c.length ≤ 100) ∧
    (l ≠ [] →
      get_metaobject_labels_with_images oracle l
        = withImagesChunks oracle [] (chunks100 l)) ∧
    (l ≠ [] →
      get_metaobject_labels_only oracle l
        = (do
            let label_list ← labelsOnlyChunks oracle [] (chunks100 l)
            if label_list = [] then Except.ok []
            else do
              let pieces ← label_list.mapM strOfLabel
              Except.ok [VStr (String.intercalate ", " pieces)])) ∧
    (l ≠ [] →
      get_image_urls_from_metaobjects oracle l
        = (do
            let st ← imageUrlsChunks oracle [] [] (chunks100 l)
            Except.ok (if st.1 ≠ [] then st.1 else st.2))) := by
  refine ⟨chunks100_length l, chunks100_flatten l, fun c => chunks100_mem l c,
    ?_, ?_, ?_⟩
  · intro h
    simp [get_metaobject_labels_with_images, h]
  · intro h
    simp [get_metaobject_labels_only, h]
  · intro h
    simp [get_image_urls_from_metaobjects, h]

/-- Witness for C8 at a concrete two-identifier list. -/
theorem c8_reference_chunking_witness :
    (chunks100 [VStr "a", VStr "b"]).length
        = ([VStr "a", VStr "b"].length + 99) / 100 ∧
    [VStr "a", VStr "b"].length ≤ 100 ∧
    get_metaobject_labels_with_images (fun _ => Except.error ()) [VStr "a", VStr "b"]
      = withImagesChunks (fun _ => Except.error ()) []
          (chunks100 [VStr "a", VStr "b"]) := by
  have h := c8_reference_chunking [VStr "a", VStr "b"] (fun _ => Except.error ())
  exact ⟨h.1, h.2.2.1 [VStr "a", VStr "b"] (by decide), h.2.2.2.1 (by decide)⟩

/-! ## C3: decode failures during reference resolution -/

/-- C3, counterexample.  In `get_image_urls_from_metaobjects`
(`bloomreach_generics.py` lines 396-399) a chunk whose response fails to
decode is RE-RAISED (`except json.JSONDecodeError as e: raise e`), so the
failure aborts the whole call instead of dropping that chunk's
contribution: the claim fails for this reference-resolution function. -/
theorem c3_counterexample :
    get_image_urls_from_metaobjects (fun _ => Except.error ()) [VStr "gid0"]
      = Except.error () := rfl

/-- C3 as amended.  In `get_metaobject_labels_only` and
`get_metaobject_labels_with_images` a chunk whose response fails to decode
is skipped at the chunk level (`except ...: continue`): its contribution is
dropped from the aggregate, the remaining chunks still contribute, and the
failure is not propagated.  In `get_image_urls_from_metaobjects`, by
contrast, a decode failure is re-raised and aborts the call (see the
counterexample). -/
theorem c3_decode_failure_contained
    (oracle : QueryOracle) (chunk : List Value) (rest : List (List Value))
    (label_list : List Value) (enriched_items : List (Value × Value))
    (hfail : oracle chunk = .error ()) :
    labelsOnlyChunks oracle label_list (chunk :: rest)
      = labelsOnlyChunks oracle label_list rest ∧
    withImagesChunks oracle enriched_items (chunk :: rest)
      = withImagesChunks oracle enriched_items rest := by
  constructor
  · rw [labelsOnlyChunks, hfail]
  · rw [withImagesChunks, hfail]

/-- Witness for C3's amended theorem at a concrete failing chunk. -/
theorem c3_decode_failure_contained_witness :
    labelsOnlyChunks (fun _ => Except.error ()) [] [[VStr "gid0"]]
      = Except.ok [] ∧
    withImagesChunks (fun _ => Except.error ()) [] [[VStr "gid0"]]
      = Except.ok [] := by
  have h := c3_decode_failure_contained (fun _ => Except.error ())
    [VStr "gid0"] [] [] [] rfl
  exact ⟨h.1.trans rfl, h.2.trans rfl⟩

/-! ## C9: idempotence of the label merge -/

theorem mem_dedupAux (x : Value) :
    ∀ (l seen : List Value), x ∈ dedupAux seen l ↔ (x ∈ l ∧ x ∉ seen) := by
  intro l
  induction l with
  | nil => intro seen; simp [dedupAux]
  | cons y ys ih =>
      intro seen
      by_cases hy : y ∈ seen
      · rw [dedupAux, if_pos hy, ih]
        constructor
        · exact fun h => ⟨List.mem_cons_of_mem _ h.1, h.2⟩
        · rintro ⟨h1, h2⟩
          rcases List.mem_cons.mp h1 with h3 | h3
          · exact absurd (h3 ▸ hy) h2
          · exact ⟨h3, h2⟩
      · rw [dedupAux, if_neg hy]
        by_cases hxy : x = y
        · subst hxy
          simp [hy]
        · simp only [List.mem_cons, ih, hxy, false_or]

theorem mem_dedupVals (x : Value) (l : List Value) :
    x ∈ dedupVals l ↔ x ∈ l := by
  rw [dedupVals, mem_dedupAux]
  simp

theorem dedupAux_eq_nil (l : List Value) :
    ∀ seen, (∀ x ∈ l, x ∈ seen) → dedupAux seen l = [] := by
  induction l with
  | nil => intro seen _; rfl
  | cons y ys ih =>
      intro seen h
      rw [dedupAux, if_pos (h y (List.mem_cons_self _ _))]
      exact ih seen (fun x hx => h x (List.mem_cons_of_mem _ hx))

theorem dedupAux_append_subset :
    ∀ (l r seen : List Value), (∀ x ∈ r, x ∈ l ∨ x ∈ seen) →
      dedupAux seen (l ++ r) = dedupAux seen l := by
  intro l
  induction l with
  | nil =>
      intro r seen h
      rw [List.nil_append]
      exact dedupAux_eq_nil r seen (fun x hx => (h x hx).resolve_left
        (fun hc => absurd hc (List.not_mem_nil x)))
  | cons a l2 ih =>
      intro r seen h
      by_cases ha : a ∈ seen
      · rw [List.cons_append, dedupAux, if_pos ha, dedupAux, if_pos ha]
        refine ih r seen (fun x hx => ?_)
        rcases h x hx with h1 | h1
        · rcases List.mem_cons.mp h1 with h2 | h2
          · exact Or.inr (h2 ▸ ha)
          · exact Or.inl h2
        · exact Or.inr h1
      · rw [List.cons_append, dedupAux, if_neg ha, dedupAux, if_neg ha]
        congr 1
        refine ih r (a :: seen) (fun x hx => ?_)
        rcases h x hx with h1 | h1
        · rcases List.mem_cons.mp h1 with h2 | h2
          · exact Or.inr (h2 ▸ List.mem_cons_self a seen)
          · exact Or.inl h2
        · exact Or.inr (List.mem_cons_of_mem _ h1)

theorem nodup_dedupAux :
    ∀ (l seen : List Value), (dedupAux seen l).Nodup := by
  intro l
  induction l with
  | nil => intro seen; exact List.nodup_nil
  | cons y ys ih =>
      intro seen
      by_cases hy : y ∈ seen
      · rw [dedupAux, if_pos hy]; exact ih seen
      · rw [dedupAux, if_neg hy]
        refine List.nodup_cons.mpr ⟨fun hc => ?_, ih (y :: seen)⟩
        exact ((mem_dedupAux y ys (y :: seen)).mp hc).2 (List.mem_cons_self _ _)

theorem dedupAux_eq_self :
    ∀ (l seen : List Value), l.Nodup → (∀ x ∈ l, x ∉ seen) →
      dedupAux seen l = l := by
  intro l
  induction l with
  | nil => intro seen _ _; rfl
  | cons y ys ih =>
      intro seen hnd hs
      rw [dedupAux, if_neg (hs y (List.mem_cons_self _ _))]
      congr 1
      refine ih (y :: seen) (List.nodup_cons.mp hnd).2 (fun x hx hc => ?_)
      rcases List.mem_cons.mp hc with h1 | h1
      · exact (List.nodup_cons.mp hnd).1 (h1 ▸ hx)
      · exact hs x (List.mem_cons_of_mem _ hx) h1

theorem dedupVals_idem (l : List Value) :
    dedupVals (dedupVals l) = dedupVals l :=
  dedupAux_eq_self (dedupVals l) [] (nodup_dedupAux l [])
    (fun x _ => List.not_mem_nil x)

theorem dedupVals_append_subset (l r : List Value)
    (h : ∀ x ∈ r, x ∈ l) : dedupVals (l ++ r) = dedupVals l :=
  dedupAux_append_subset l r [] (fun x hx => Or.inl (h x hx))

theorem dedupVals_ne_nil (l : List Value) (h : l ≠ []) :
    dedupVals l ≠ [] := by
  cases l with
  | nil => exact absurd rfl h
  | cons y ys =>
      rw [dedupVals, dedupAux, if_neg (List.not_mem_nil y)]
      exact List.cons_ne_nil _ _

/-- De-duplicating after appending values already present leaves the
de-duplicated list unchanged. -/
theorem dedupVals_absorb (a b : List Value) (h : ∀ x ∈ b, x ∈ a) :
    dedupVals (dedupVals a ++ b) = dedupVals a := by
  rw [dedupVals_append_subset _ _ (fun x hx => (mem_dedupVals x a).mpr (h x hx))]
  exact dedupVals_idem a

/-- C9.  The label merge is idempotent: applying
`merge_labels(·, "labels")` twice produces the same attribute map — in
particular the same `labels` value, same elements in the same order — as
applying it once. -/
theorem c9_merge_labels_idempotent (m : AttrMap) :
    merge_labels (merge_labels m "labels") "labels" = merge_labels m "labels" := by
  by_cases h0 : existingLabels m "labels" ++ additionLabels m "labels" = []
  · have h1 : merge_labels m "labels" = m := by
      rw [merge_labels, if_pos h0]
    rw [h1]
    exact h1
  · have h1 : merge_labels m "labels"
        = aset m "labels"
            (VList (dedupVals (existingLabels m "labels" ++ additionLabels m "labels"))) := by
      rw [merge_labels, if_neg h0]
    have hget : aget (merge_labels m "labels") "labels"
        = some (VList (dedupVals (existingLabels m "labels" ++ additionLabels m "labels"))) := by
      rw [h1]; exact aget_aset_self _ _ _
    have hhas : ahas (merge_labels m "labels") "labels" = true := by
      rw [ahas, hget]; rfl
    have hA1 : aget (merge_labels m "labels") "spvm.custom.additional_label"
        = aget m "spvm.custom.additional_label" := by
      rw [h1]; exact aget_aset_ne _ _ _ _ (by decide)
    have hEx : existingLabels (merge_labels m "labels") "labels"
        = dedupVals (existingLabels m "labels" ++ additionLabels m "labels") := by
      rw [existingLabels, hget]
      rfl
    have hAdd : additionLabels (merge_labels m "labels") "labels"
        = labelsFromVal (aget m "spvm.custom.additional_label") := by
      rw [additionLabels, if_pos hhas, hA1]
    have hsub : ∀ x ∈ labelsFromVal (aget m "spvm.custom.additional_label"),
        x ∈ existingLabels m "labels" ++ additionLabels m "labels" := by
      intro x hx
      rw [List.mem_append]
      right
      rw [additionLabels]
      by_cases hh : ahas m "labels" = true
      · rw [if_pos hh]; exact hx
      · rw [if_neg hh, List.mem_append]; exact Or.inl hx
    have hne2 : dedupVals (existingLabels m "labels" ++ additionLabels m "labels")
        ++ labelsFromVal (aget m "spvm.custom.additional_label") ≠ [] := by
      intro hc
      exact dedupVals_ne_nil _ h0 (List.append_eq_nil.mp hc).1
    have h2 : merge_labels (merge_labels m "labels") "labels"
        = aset (merge_labels m "labels") "labels"
            (VList (dedupVals
              (dedupVals (existingLabels m "labels" ++ additionLabels m "labels")
                ++ labelsFromVal (aget m "spvm.custom.additional_label")))) := by
      rw [merge_labels, hEx, hAdd, if_neg hne2]
    rw [h2, dedupVals_absorb _ _ hsub, h1, aset_aset, ← h1]

/-! ## Decomposition and frame lemmas for the variant derivation stage -/

theorem exceptBind_ok {α β : Type} {x : Except Unit α} {f : α → Except Unit β}
    {b : β} (h : (x >>= f) = Except.ok b) :
    ∃ a, x = Except.ok a ∧ f a = Except.ok b := by
  cases x with
  | error e => exact Except.noConfusion h
  | ok a => exact ⟨a, rfl, h⟩

theorem bind_ok_eq {α β : Type} (a : α) (f : α → Except Unit β) :
    (Except.ok a >>= f) = f a := rfl

theorem bind_error_eq {α β : Type} (f : α → Except Unit β) :
    ((Except.error () : Except Unit α) >>= f) = Except.error () := rfl

theorem pure_eq_ok {α : Type} (a : α) : (pure a : Except Unit α) = Except.ok a := rfl

theorem priceBlock_frame (va m m2 : AttrMap) (k : String)
    (h : priceBlock va m = .ok m2) (h1 : k ≠ "price") (h2 : k ≠ "sale_price") :
    aget m2 k = aget m k := by
  cases hc : aget va "sv.compareAtPrice" with
  | none =>
      cases hp : aget va "sv.price" with
      | none => simp [priceBlock, hc, mapItem, hp, bind_error_eq] at h
      | some p =>
          simp [priceBlock, hc, mapItem, hp, bind_ok_eq] at h
          subst h
          exact aget_aset_ne _ _ _ _ h1
  | some c =>
      cases htc : truthy c with
      | false =>
          cases hp : aget va "sv.price" with
          | none => simp [priceBlock, hc, htc, mapItem, hp, bind_error_eq] at h
          | some p =>
              simp [priceBlock, hc, htc, mapItem, hp, bind_ok_eq] at h
              subst h
              exact aget_aset_ne _ _ _ _ h1
      | true =>
          cases hp : aget va "sv.price" with
          | none => simp [priceBlock, hc, htc, mapItem, hp, bind_error_eq] at h
          | some p =>
              by_cases he : c = p
              · simp [priceBlock, hc, htc, mapItem, hp, he, bind_ok_eq] at h
                subst h
                exact aget_aset_ne _ _ _ _ h1
              · simp [priceBlock, hc, htc, mapItem, hp, he, bind_ok_eq] at h
                subst h
                rw [aget_aset_ne _ _ _ _ h2]
                exact aget_aset_ne _ _ _ _ h1

theorem optionStep_frame (m : AttrMap) (option : Value) (key target : String)
    (m2 : AttrMap) (k : String) (h : optionStep m option key target = .ok m2)
    (hk : k ≠ target) : aget m2 k = aget m k := by
  rw [optionStep] at h
  obtain ⟨b1, hb1, h⟩ := exceptBind_ok h
  cases b1 with
  | false =>
      simp [pure_eq_ok] at h
      subst h
      rfl
  | true =>
      simp only [if_pos (rfl : (true : Bool) = true)] at h
      obtain ⟨b2, hb2, h⟩ := exceptBind_ok h
      cases b2 with
      | false =>
          simp [pure_eq_ok] at h
          subst h
          rfl
      | true =>
          simp only [if_pos (rfl : (true : Bool) = true)] at h
          obtain ⟨nm, hnm, h⟩ := exceptBind_ok h
          obtain ⟨b3, hb3, h⟩ := exceptBind_ok h
          cases b3 with
          | false =>
              simp [pure_eq_ok] at h
              subst h
              rfl
          | true =>
              simp only [if_pos (rfl : (true : Bool) = true)] at h
              obtain ⟨v, hv2, h⟩ := exceptBind_ok h
              simp [pure_eq_ok] at h
              subst h
              exact aget_aset_ne _ _ _ _ hk

theorem optionsLoop_frame :
    ∀ (opts : List Value) (m m2 : AttrMap) (k : String),
      optionsLoop m opts = .ok m2 → k ≠ "color" → k ≠ "size" →
      aget m2 k = aget m k := by
  intro opts
  induction opts with
  | nil =>
      intro m m2 k h _ _
      obtain rfl := (Except.ok.inj h).symm
      rfl
  | cons o rest ih =>
      intro m m2 k h hc hs
      rw [optionsLoop] at h
      obtain ⟨o1, h1, h⟩ := exceptBind_ok h
      obtain ⟨o2, h2, h⟩ := exceptBind_ok h
      rw [ih o2 m2 k h hc hs, optionStep_frame o1 o "Size" "size" o2 k h2 hs,
        optionStep_frame m o "Color" "color" o1 k h1 hc]

theorem optionsBlock_frame (va m m2 : AttrMap) (k : String)
    (h : optionsBlock va m = .ok m2) (hc : k ≠ "color") (hs : k ≠ "size") :
    aget m2 k = aget m k := by
  cases hso : aget va "sv.selectedOptions" with
  | none =>
      simp [optionsBlock, hso] at h
      subst h
      rfl
  | some so =>
      cases ht : truthy so with
      | false =>
          simp [optionsBlock, hso, ht] at h
          subst h
          rfl
      | true =>
          rw [optionsBlock] at h
          simp only [hso, ht, if_pos (rfl : (true : Bool) = true)] at h
          obtain ⟨n, hn, h⟩ := exceptBind_ok h
          by_cases hz : 0 < n
          · rw [if_pos hz] at h
            obtain ⟨opts, hopts, h⟩ := exceptBind_ok h
            exact optionsLoop_frame opts m m2 k h hc hs
          · rw [if_neg hz] at h
            obtain rfl := (Except.ok.inj h).symm
            rfl

theorem availabilityBlock_frame (va m : AttrMap) (k : String)
    (h1 : k ≠ "availability") (h2 : k ≠ "sv.availableForSale") :
    aget (availabilityBlock va m) k = aget m k := by
  cases hv : aget va "sv.availableForSale" with
  | none =>
      have e : availabilityBlock va m
          = aset (aset (aset m "availability" (VBool false)) "availability"
              (VBool true)) "sv.availableForSale" (VBool false) := by
        rw [availabilityBlock, hv]
      rw [e, aget_aset_ne _ _ _ _ h2, aget_aset_ne _ _ _ _ h1]
      exact aget_aset_ne _ _ _ _ h1
  | some v =>
      cases ht : truthy v with
      | true =>
          have e : availabilityBlock va m
              = aset (aset m "availability" (VBool false)) "availability"
                  (VBool true) := by
            simp [availabilityBlock, hv, ht]
          rw [e, aget_aset_ne _ _ _ _ h1]
          exact aget_aset_ne _ _ _ _ h1
      | false =>
          have e : availabilityBlock va m
              = aset (aset (aset m "availability" (VBool false)) "availability"
                  (VBool true)) "sv.availableForSale" (VBool false) := by
            simp [availabilityBlock, hv, ht]
          rw [e, aget_aset_ne _ _ _ _ h2, aget_aset_ne _ _ _ _ h1]
          exact aget_aset_ne _ _ _ _ h1

theorem availabilityBlock_avail (va m : AttrMap) :
    aget (availabilityBlock va m) "availability" = some (VBool true) := by
  cases hv : aget va "sv.availableForSale" with
  | none =>
      have e : availabilityBlock va m
          = aset (aset (aset m "availability" (VBool false)) "availability"
              (VBool true)) "sv.availableForSale" (VBool false) := by
        rw [availabilityBlock, hv]
      rw [e, aget_aset_ne _ _ _ _ (by decide)]
      exact aget_aset_self _ _ _
  | some v =>
      cases ht : truthy v with
      | true =>
          have e : availabilityBlock va m
              = aset (aset m "availability" (VBool false)) "availability"
                  (VBool true) := by
            simp [availabilityBlock, hv, ht]
          rw [e]
          exact aget_aset_self _ _ _
      | false =>
          have e : availabilityBlock va m
              = aset (aset (aset m "availability" (VBool false)) "availability"
                  (VBool true)) "sv.availableForSale" (VBool false) := by
            simp [availabilityBlock, hv, ht]
          rw [e, aget_aset_ne _ _ _ _ (by decide)]
          exact aget_aset_self _ _ _

theorem availabilityBlock_marker_none (va m : AttrMap)
    (hv : aget va "sv.availableForSale" = none) :
    aget (availabilityBlock va m) "sv.availableForSale" = some (VBool false) := by
  have e : availabilityBlock va m
      = aset (aset (aset m "availability" (VBool false)) "availability"
          (VBool true)) "sv.availableForSale" (VBool false) := by
    rw [availabilityBlock, hv]
  rw [e]
  exact aget_aset_self _ _ _

theorem availabilityBlock_marker_falsy (va m : AttrMap) (v : Value)
    (hv : aget va "sv.availableForSale" = some v) (ht : truthy v = false) :
    aget (availabilityBlock va m) "sv.availableForSale" = some (VBool false) := by
  have e : availabilityBlock va m
      = aset (aset (aset m "availability" (VBool false)) "availability"
          (VBool true)) "sv.availableForSale" (VBool false) := by
    simp [availabilityBlock, hv, ht]
  rw [e]
  exact aget_aset_self _ _ _

theorem variantImageBlock_frame (va m m2 : AttrMap) (k : String)
    (h : variantImageBlock va m = .ok m2) (hk : k ≠ "thumb_image") :
    aget m2 k = aget m k := by
  cases hi : aget va "sv.image" with
  | none =>
      simp [variantImageBlock, hi] at h
      subst h
      rfl
  | some img =>
      cases ht : truthy img with
      | false =>
          simp [variantImageBlock, hi, ht] at h
          subst h
          rfl
      | true =>
          rw [variantImageBlock] at h
          simp only [hi, ht, if_pos (rfl : (true : Bool) = true)] at h
          obtain ⟨b, hb, h⟩ := exceptBind_ok h
          cases b with
          | false =>
              simp at h
              subst h
              exact aget_aset_ne _ _ _ _ hk
          | true =>
              simp only [if_pos (rfl : (true : Bool) = true)] at h
              obtain ⟨u, hu2, h⟩ := exceptBind_ok h
              cases htu : truthy u with
              | true =>
                  simp [htu] at h
                  subst h
                  exact aget_aset_ne _ _ _ _ hk
              | false =>
                  simp [htu] at h
                  subst h
                  exact aget_aset_ne _ _ _ _ hk

theorem merge_labels_frame (m : AttrMap) (new_key k : String) (hk : k ≠ new_key) :
    aget (merge_labels m new_key) k = aget m k := by
  rw [merge_labels]
  by_cases h0 : existingLabels m new_key ++ additionLabels m new_key = []
  · rw [if_pos h0]
  · rw [if_neg h0]
    exact aget_aset_ne _ _ _ _ hk

/-- Decomposition of the variant derivation into its four fallible stages
and the final label merge. -/
theorem variant_pipeline_decompose (va out : AttrMap)
    (h : create_product_variant_attributes va = .ok out) :
    ∃ m1 m2 m4, priceBlock va va = .ok m1 ∧ optionsBlock va m1 = .ok m2 ∧
      variantImageBlock va (availabilityBlock va m2) = .ok m4 ∧
      out = merge_labels m4 "labels" := by
  rw [create_product_variant_attributes] at h
  obtain ⟨m1, h1, h⟩ := exceptBind_ok h
  obtain ⟨m2, h2, h⟩ := exceptBind_ok h
  obtain ⟨m4, h4, h⟩ := exceptBind_ok h
  exact ⟨m1, m2, m4, h1, h2, h4, (Except.ok.inj h).symm⟩

/-- The stages after the price block leave every key outside their own
written set unchanged. -/
theorem variant_tail_frame (va m1 m2 m4 out : AttrMap) (k : String)
    (h2 : optionsBlock va m1 = .ok m2)
    (h4 : variantImageBlock va (availabilityBlock va m2) = .ok m4)
    (hout : out = merge_labels m4 "labels")
    (hk1 : k ≠ "color") (hk2 : k ≠ "size") (hk3 : k ≠ "availability")
    (hk4 : k ≠ "sv.availableForSale") (hk5 : k ≠ "thumb_image")
    (hk6 : k ≠ "labels") :
    aget out k = aget m1 k := by
  rw [hout, merge_labels_frame _ _ _ hk6,
    variantImageBlock_frame _ _ _ _ h4 hk5,
    availabilityBlock_frame _ _ _ hk3 hk4,
    optionsBlock_frame _ _ _ _ h2 hk1 hk2]

/-! ## C4: variant price tiering -/

theorem priceBlock_eq_case (va m : AttrMap) (c p : Value)
    (hc : aget va "sv.compareAtPrice" = some c) (_ht : truthy c = true)
    (hp : aget va "sv.price" = some p) (he : c = p) :
    priceBlock va m = .ok (aset m "price" c) := by
  simp [priceBlock, hc, mapItem, hp, he, bind_ok_eq]

theorem priceBlock_ne_case (va m : AttrMap) (c p : Value)
    (hc : aget va "sv.compareAtPrice" = some c) (ht : truthy c = true)
    (hp : aget va "sv.price" = some p) (he : c ≠ p) :
    priceBlock va m = .ok (aset (aset m "price" c) "sale_price" p) := by
  simp [priceBlock, hc, ht, mapItem, hp, he, bind_ok_eq]

theorem priceBlock_absent_case (va m : AttrMap) (p : Value)
    (hc : aget va "sv.compareAtPrice" = none)
    (hp : aget va "sv.price" = some p) :
    priceBlock va m = .ok (aset m "price" p) := by
  simp [priceBlock, hc, mapItem, hp, bind_ok_eq]

theorem priceBlock_falsy_case (va m : AttrMap) (c p : Value)
    (hc : aget va "sv.compareAtPrice" = some c) (ht : truthy c = false)
    (hp : aget va "sv.price" = some p) :
    priceBlock va m = .ok (aset m "price" p) := by
  simp [priceBlock, hc, ht, mapItem, hp, bind_ok_eq]

/-- C4, counterexample.  The claim fails on the code in two ways.  First,
the output is built from a copy of the input attributes, so a variant whose
input already carries a `sale_price` key keeps it even in the
compare-at-equal case where the claim requires "no sale_price".  Second,
the guard is Python truthiness, not presence: a present but falsy
`sv.compareAtPrice` (here the empty string, which differs from `sv.price`)
takes the claim's "absent" branch, so `price` is `sv.price`, not the claim's
`sv.compareAtPrice`. -/
theorem c4_counterexample :
    (create_product_variant_attributes
        [("sv.price", VStr "80"), ("sv.compareAtPrice", VStr "80"),
         ("sale_price", VStr "50")]).map (fun m => aget m "sale_price")
      = Except.ok (some (VStr "50")) ∧
    (create_product_variant_attributes
        [("sv.price", VStr "80"), ("sv.compareAtPrice", VStr "")]).map
        (fun m => aget m "price")
      = Except.ok (some (VStr "80")) ∧
    VStr "80" ≠ VStr "" := ⟨rfl, rfl, by decide⟩

/-- C4 as amended.  For every variant whose attributes contain `sv.price`
and whose derivation succeeds: if `sv.compareAtPrice` is present and truthy
and equal to `sv.price`, the output `price` is that value and `sale_price`
is not written (it keeps whatever value the input had, if any); if present,
truthy, and different, `price` is `sv.compareAtPrice` and `sale_price` is
`sv.price`; if absent or falsy (e.g. null), `price` is `sv.price` and
`sale_price` is again not written. -/
theorem c4_price_tiering (va out : AttrMap) (p : Value)
    (hout : create_product_variant_attributes va = .ok out)
    (hp : aget va "sv.price" = some p) :
    (∀ c, aget va "sv.compareAtPrice" = some c → truthy c = true →
      (c = p → aget out "price" = some c ∧
        aget out "sale_price" = aget va "sale_price") ∧
      (c ≠ p → aget out "price" = some c ∧ aget out "sale_price" = some p)) ∧
    ((aget va "sv.compareAtPrice" = none ∨
        (∃ c, aget va "sv.compareAtPrice" = some c ∧ truthy c = false)) →
      aget out "price" = some p ∧
      aget out "sale_price" = aget va "sale_price") := by
  obtain ⟨m1, m2, m4, h1, h2, h4, hout4⟩ := variant_pipeline_decompose va out hout
  have tp : aget out "price" = aget m1 "price" :=
    variant_tail_frame va m1 m2 m4 out "price" h2 h4 hout4 (by decide) (by decide)
      (by decide) (by decide) (by decide) (by decide)
  have ts : aget out "sale_price" = aget m1 "sale_price" :=
    variant_tail_frame va m1 m2 m4 out "sale_price" h2 h4 hout4 (by decide)
      (by decide) (by decide) (by decide) (by decide) (by decide)
  constructor
  · intro c hc htc
    constructor
    · intro he
      have e := priceBlock_eq_case va va c p hc htc hp he
      have hm1 : m1 = aset va "price" c := Except.ok.inj (h1.symm.trans e)
      subst hm1
      rw [tp, ts, aget_aset_self, aget_aset_ne _ _ _ _ (by decide)]
      exact ⟨rfl, rfl⟩
    · intro he
      have e := priceBlock_ne_case va va c p hc htc hp he
      have hm1 : m1 = aset (aset va "price" c) "sale_price" p :=
        Except.ok.inj (h1.symm.trans e)
      subst hm1
      rw [tp, ts, aget_aset_ne _ _ _ _ (by decide), aget_aset_self,
        aget_aset_self]
      exact ⟨rfl, rfl⟩
  · intro hd
    have e : priceBlock va va = .ok (aset va "price" p) := by
      rcases hd with hnone | ⟨c, hc, htc⟩
      · exact priceBlock_absent_case va va p hnone hp
      · exact priceBlock_falsy_case va va c p hc htc hp
    have hm1 : m1 = aset va "price" p := Except.ok.inj (h1.symm.trans e)
    subst hm1
    rw [tp, ts, aget_aset_self, aget_aset_ne _ _ _ _ (by decide)]
    exact ⟨rfl, rfl⟩

/-- Witness for C4's amended theorem: a variant with a higher compare-at
price gets `price = compareAtPrice` and `sale_price = sv.price`. -/
theorem c4_price_tiering_witness :
    aget [("sv.price", VStr "80"), ("sv.compareAtPrice", VStr "100"),
      ("price", VStr "100"), ("sale_price", VStr "80"),
      ("availability", VBool true), ("sv.availableForSale", VBool false)]
      "price" = some (VStr "100") ∧
    aget [("sv.price", VStr "80"), ("sv.compareAtPrice", VStr "100"),
      ("price", VStr "100"), ("sale_price", VStr "80"),
      ("availability", VBool true), ("sv.availableForSale", VBool false)]
      "sale_price" = some (VStr "80") := by
  have h := c4_price_tiering
    [("sv.price", VStr "80"), ("sv.compareAtPrice", VStr "100")]
    [("sv.price", VStr "80"), ("sv.compareAtPrice", VStr "100"),
      ("price", VStr "100"), ("sale_price", VStr "80"),
      ("availability", VBool true), ("sv.availableForSale", VBool false)]
    (VStr "80") rfl rfl
  exact (h.1 (VStr "100") rfl rfl).2 (by decide)

/-! ## C6: availability normalization -/

/-- C6.  For every variant whose derivation succeeds: the output always has
`availability = true` (the block first writes `false`, then overwrites it
with `true` on both branches), and when `sv.availableForSale` is absent or
falsy the output additionally carries the explicit
`sv.availableForSale = false` marker. -/
theorem c6_availability (va out : AttrMap)
    (hout : create_product_variant_attributes va = .ok out) :
    aget out "availability" = some (VBool true) ∧
    ((aget va "sv.availableForSale" = none ∨
        (∃ v, aget va "sv.availableForSale" = some v ∧ truthy v = false)) →
      aget out "sv.availableForSale" = some (VBool false)) := by
  obtain ⟨m1, m2, m4, h1, h2, h4, hout4⟩ := variant_pipeline_decompose va out hout
  have step : ∀ k, k ≠ "thumb_image" → k ≠ "labels" →
      aget out k = aget (availabilityBlock va m2) k := by
    intro k hk1 hk2
    rw [hout4, merge_labels_frame _ _ _ hk2,
      variantImageBlock_frame _ _ _ _ h4 hk1]
  constructor
  · rw [step "availability" (by decide) (by decide)]
    exact availabilityBlock_avail va m2
  · intro hd
    rw [step "sv.availableForSale" (by decide) (by decide)]
    rcases hd with hnone | ⟨v, hv, ht⟩
    · exact availabilityBlock_marker_none va m2 hnone
    · exact availabilityBlock_marker_falsy va m2 v hv ht

/-- Witness for C6 at a variant with no availability flag. -/
theorem c6_availability_witness :
    aget [("sv.price", VStr "80"), ("price", VStr "80"),
      ("availability", VBool true), ("sv.availableForSale", VBool false)]
      "availability" = some (VBool true) ∧
    aget [("sv.price", VStr "80"), ("price", VStr "80"),
      ("availability", VBool true), ("sv.availableForSale", VBool false)]
      "sv.availableForSale" = some (VBool false) := by
  have h := c6_availability [("sv.price", VStr "80")]
    [("sv.price", VStr "80"), ("price", VStr "80"),
      ("availability", VBool true), ("sv.availableForSale", VBool false)] rfl
  exact ⟨h.1, h.2 (Or.inl rfl)⟩

/-! ## C10: frame effect of the variant derivation -/

/-- C10.  For every input variant whose catalog-specific derivation
succeeds, every key of the input attribute map other than `price`,
`sale_price`, `color`, `size`, `availability`, `sv.availableForSale`,
`thumb_image` and `labels` appears in the output attribute map with its
input value unchanged: the output is built from a copy of the input and
only those derived keys are written. -/
theorem c10_variant_frame_effect (va out : AttrMap) (k : String)
    (hout : create_product_variant_attributes va = .ok out)
    (h1 : k ≠ "price") (h2 : k ≠ "sale_price") (h3 : k ≠ "color")
    (h4 : k ≠ "size") (h5 : k ≠ "availability")
    (h6 : k ≠ "sv.availableForSale") (h7 : k ≠ "thumb_image")
    (h8 : k ≠ "labels") :
    aget out k = aget va k := by
  obtain ⟨m1, m2, m4, hp1, hp2, hp4, hout4⟩ := variant_pipeline_decompose va out hout
  rw [variant_tail_frame va m1 m2 m4 out k hp2 hp4 hout4 h3 h4 h5 h6 h7 h8]
  exact priceBlock_frame va va m1 k hp1 h1 h2

/-- Witness for C10: the untouched key `foo` passes through unchanged. -/
theorem c10_variant_frame_effect_witness :
    aget [("sv.price", VStr "80"), ("foo", VStr "bar"), ("price", VStr "80"),
      ("availability", VBool true), ("sv.availableForSale", VBool false)]
      "foo" = aget [("sv.price", VStr "80"), ("foo", VStr "bar")] "foo" := by
  exact c10_variant_frame_effect [("sv.price", VStr "80"), ("foo", VStr "bar")]
    [("sv.price", VStr "80"), ("foo", VStr "bar"), ("price", VStr "80"),
      ("availability", VBool true), ("sv.availableForSale", VBool false)]
    "foo" rfl (by decide) (by decide) (by decide) (by decide) (by decide)
    (by decide) (by decide) (by decide)

/-! ## C5: image fallback -/

theorem productThumbFallback_none (pa m : AttrMap)
    (h : aget pa "sp.featuredImage" = none) :
    productThumbFallback pa m = .ok (aset m "thumb_image" (VStr placeholder_url)) := by
  simp [productThumbFallback, h]

theorem productThumbFallback_falsy (pa m : AttrMap) (img : Value)
    (h : aget pa "sp.featuredImage" = some img) (ht : truthy img = false) :
    productThumbFallback pa m = .ok (aset m "thumb_image" (VStr placeholder_url)) := by
  simp [productThumbFallback, h, ht]

theorem productThumbFallback_nourl (pa m : AttrMap) (fs : List (String × Value))
    (h : aget pa "sp.featuredImage" = some (VObj fs))
    (ht : truthy (VObj fs) = true) (hu : aget fs "url" = none) :
    productThumbFallback pa m = .ok (aset m "thumb_image" (VStr placeholder_url)) := by
  simp [productThumbFallback, h, ht, pyIn, ahas, hu, bind_ok_eq]

theorem productThumbOverwrite_none (pa m : AttrMap)
    (h : aget pa "sp.featuredImage" = none) :
    productThumbOverwrite pa m = .ok m := by
  simp [productThumbOverwrite, h]

theorem productThumbOverwrite_falsy (pa m : AttrMap) (img : Value)
    (h : aget pa "sp.featuredImage" = some img) (ht : truthy img = false) :
    productThumbOverwrite pa m = .ok m := by
  simp [productThumbOverwrite, h, ht]

theorem productThumbOverwrite_nourl (pa m : AttrMap) (fs : List (String × Value))
    (h : aget pa "sp.featuredImage" = some (VObj fs))
    (ht : truthy (VObj fs) = true) (hu : aget fs "url" = none) :
    productThumbOverwrite pa m = .ok m := by
  simp [productThumbOverwrite, h, ht, pyIn, ahas, hu, bind_ok_eq]

theorem productThumbOverwrite_url (pa m : AttrMap) (fs : List (String × Value))
    (u : Value) (h : aget pa "sp.featuredImage" = some (VObj fs))
    (ht : truthy (VObj fs) = true) (hu : aget fs "url" = some u) :
    productThumbOverwrite pa m = .ok (aset m "thumb_image" u) := by
  simp [productThumbOverwrite, h, ht, pyIn, ahas, hu, pyItem, bind_ok_eq]

theorem variantImageBlock_none (va m : AttrMap)
    (h : aget va "sv.image" = none) : variantImageBlock va m = .ok m := by
  simp [variantImageBlock, h]

theorem variantImageBlock_falsy (va m : AttrMap) (img : Value)
    (h : aget va "sv.image" = some img) (ht : truthy img = false) :
    variantImageBlock va m = .ok m := by
  simp [variantImageBlock, h, ht]

theorem variantImageBlock_nourl (va m : AttrMap) (fs : List (String × Value))
    (h : aget va "sv.image" = some (VObj fs)) (ht : truthy (VObj fs) = true)
    (hu : aget fs "url" = none) :
    variantImageBlock va m = .ok (aset m "thumb_image" (VStr placeholder_url)) := by
  simp [variantImageBlock, h, ht, pyIn, ahas, hu, bind_ok_eq]

theorem variantImageBlock_url (va m : AttrMap) (fs : List (String × Value))
    (u : Value) (h : aget va "sv.image" = some (VObj fs))
    (ht : truthy (VObj fs) = true) (hu : aget fs "url" = some u)
    (htu : truthy u = true) :
    variantImageBlock va m = .ok (aset m "thumb_image" u) := by
  simp [variantImageBlock, h, ht, pyIn, ahas, hu, pyItem, htu, bind_ok_eq]

theorem variantImageBlock_url_falsy (va m : AttrMap) (fs : List (String × Value))
    (u : Value) (h : aget va "sv.image" = some (VObj fs))
    (ht : truthy (VObj fs) = true) (hu : aget fs "url" = some u)
    (htu : truthy u = false) :
    variantImageBlock va m = .ok (aset m "thumb_image" (VStr placeholder_url)) := by
  simp [variantImageBlock, h, ht, pyIn, ahas, hu, pyItem, htu, bind_ok_eq]

/-- Decomposition of the product-attribute derivation into the two thumb
blocks (everything before them is deterministic and everything after —
`apply_mappings` over the empty `PRODUCT_MAPPINGS` — is the identity). -/
theorem product_attrs_decompose (url : String) (pa out : AttrMap)
    (h : create_product_attributes url pa = .ok out) :
    ∃ m2 m3, productThumbFallback pa m2 = .ok m3 ∧
      productThumbOverwrite pa m3 = .ok out := by
  rw [create_product_attributes] at h
  obtain ⟨handle, hh, h⟩ := exceptBind_ok h
  obtain ⟨m3, h3, h⟩ := exceptBind_ok h
  obtain ⟨m4, h4, h⟩ := exceptBind_ok h
  refine ⟨_, m3, h3, ?_⟩
  rw [h4]
  exact congrArg Except.ok (Except.ok.inj h)

/-- C5, counterexample.  At the product level an image object with a
present but EMPTY `url` makes the second thumb block overwrite the
placeholder with the empty string (`bloomreach_products.py` lines 122-123
check only key presence, not truthiness); at the variant level an entirely
absent `sv.image` writes no `thumb_image` at all (lines 160-167 run only
when `sv.image` is present and truthy), so no placeholder appears.  Both
contradict the claim. -/
theorem c5_counterexample :
    (create_product_attributes "shop.example.com"
        [("sp.handle", VStr "h"),
         ("sp.featuredImage", VObj [("url", VStr "")])]).map
      (fun m => aget m "thumb_image") = Except.ok (some (VStr "")) ∧
    VStr "" ≠ VStr placeholder_url ∧
    (create_product_variant_attributes [("sv.price", VStr "80")]).map
      (fun m => aget m "thumb_image") = Except.ok none :=
  ⟨rfl, by decide, rfl⟩

/-- C5 as amended.  Product level (`sp.featuredImage`): when the image
object is absent or falsy, or is an object without a `url` entry, the
output `thumb_image` is the fixed placeholder; but when the object has a
`url` entry the output `thumb_image` is that url value EVEN IF EMPTY (the
second, truthiness-free assignment overwrites the fallback).  Variant level
(`sv.image`): when the image object is present and truthy, a missing or
falsy `url` yields the placeholder and a truthy `url` is copied; when
`sv.image` is absent or falsy, `thumb_image` is not written at all (it
keeps the input's value, with no placeholder substituted). -/
theorem c5_image_fallback :
    (∀ url pa out, create_product_attributes url pa = .ok out →
      (aget pa "sp.featuredImage" = none ∨
        (∃ img, aget pa "sp.featuredImage" = some img ∧ truthy img = false)) →
      aget out "thumb_image" = some (VStr placeholder_url)) ∧
    (∀ url pa out fs, create_product_attributes url pa = .ok out →
      aget pa "sp.featuredImage" = some (VObj fs) → truthy (VObj fs) = true →
      aget fs "url" = none →
      aget out "thumb_image" = some (VStr placeholder_url)) ∧
    (∀ url pa out fs u, create_product_attributes url pa = .ok out →
      aget pa "sp.featuredImage" = some (VObj fs) → truthy (VObj fs) = true →
      aget fs "url" = some u →
      aget out "thumb_image" = some u) ∧
    (∀ va out fs, create_product_variant_attributes va = .ok out →
      aget va "sv.image" = some (VObj fs) → truthy (VObj fs) = true →
      (aget fs "url" = none ∨ (∃ u, aget fs "url" = some u ∧ truthy u = false)) →
      aget out "thumb_image" = some (VStr placeholder_url)) ∧
    (∀ va out fs u, create_product_variant_attributes va = .ok out →
      aget va "sv.image" = some (VObj fs) → truthy (VObj fs) = true →
      aget fs "url" = some u → truthy u = true →
      aget out "thumb_image" = some u) ∧
    (∀ va out, create_product_variant_attributes va = .ok out →
      (aget va "sv.image" = none ∨
        (∃ img, aget va "sv.image" = some img ∧ truthy img = false)) →
      aget out "thumb_image" = aget va "thumb_image") := by
  refine ⟨?_, ?_, ?_, ?_, ?_, ?_⟩
  · intro url pa out h hd
    obtain ⟨m2, m3, hf, ho⟩ := product_attrs_decompose url pa out h
    have e3 : m3 = aset m2 "thumb_image" (VStr placeholder_url) := by
      rcases hd with hnone | ⟨img, himg, ht⟩
      · exact Except.ok.inj (hf.symm.trans (productThumbFallback_none pa m2 hnone))
      · exact Except.ok.inj
          (hf.symm.trans (productThumbFallback_falsy pa m2 img himg ht))
    have eo : out = m3 := by
      rcases hd with hnone | ⟨img, himg, ht⟩
      · exact Except.ok.inj (ho.symm.trans (productThumbOverwrite_none pa m3 hnone))
      · exact Except.ok.inj
          (ho.symm.trans (productThumbOverwrite_falsy pa m3 img himg ht))
    rw [eo, e3]
    exact aget_aset_self _ _ _
  · intro url pa out fs h himg ht hu
    obtain ⟨m2, m3, hf, ho⟩ := product_attrs_decompose url pa out h
    have e3 : m3 = aset m2 "thumb_image" (VStr placeholder_url) :=
      Except.ok.inj (hf.symm.trans (productThumbFallback_nourl pa m2 fs himg ht hu))
    have eo : out = m3 :=
      Except.ok.inj (ho.symm.trans
        (productThumbOverwrite_nourl pa m3 fs himg ht hu))
    rw [eo, e3]
    exact aget_aset_self _ _ _
  · intro url pa out fs u h himg ht hu
    obtain ⟨m2, m3, hf, ho⟩ := product_attrs_decompose url pa out h
    have eo : out = aset m3 "thumb_image" u :=
      Except.ok.inj (ho.symm.trans
        (productThumbOverwrite_url pa m3 fs u himg ht hu))
    rw [eo]
    exact aget_aset_self _ _ _
  · intro va out fs h himg ht hd
    obtain ⟨m1, m2, m4, hp1, hp2, hp4, hout4⟩ := variant_pipeline_decompose va out h
    have e4 : m4 = aset (availabilityBlock va m2) "thumb_image" (VStr placeholder_url) := by
      rcases hd with hnone | ⟨u, hu, htu⟩
      · exact Except.ok.inj (hp4.symm.trans
          (variantImageBlock_nourl va _ fs himg ht hnone))
      · exact Except.ok.inj (hp4.symm.trans
          (variantImageBlock_url_falsy va _ fs u himg ht hu htu))
    rw [hout4, merge_labels_frame _ _ _ (by decide), e4]
    exact aget_aset_self _ _ _
  · intro va out fs u h himg ht hu htu
    obtain ⟨m1, m2, m4, hp1, hp2, hp4, hout4⟩ := variant_pipeline_decompose va out h
    have e4 : m4 = aset (availabilityBlock va m2) "thumb_image" u :=
      Except.ok.inj (hp4.symm.trans
        (variantImageBlock_url va _ fs u himg ht hu htu))
    rw [hout4, merge_labels_frame _ _ _ (by decide), e4]
    exact aget_aset_self _ _ _
  · intro va out h hd
    obtain ⟨m1, m2, m4, hp1, hp2, hp4, hout4⟩ := variant_pipeline_decompose va out h
    have e4 : m4 = availabilityBlock va m2 := by
      rcases hd with hnone | ⟨img, himg, ht⟩
      · exact Except.ok.inj (hp4.symm.trans
          (variantImageBlock_none va _ hnone))
      · exact Except.ok.inj (hp4.symm.trans
          (variantImageBlock_falsy va _ img himg ht))
    rw [hout4, merge_labels_frame _ _ _ (by decide), e4,
      availabilityBlock_frame _ _ _ (by decide) (by decide),
      optionsBlock_frame va m1 m2 _ hp2 (by decide) (by decide)]
    exact priceBlock_frame va va m1 _ hp1 (by decide) (by decide)

/-- Witness for C5's amended theorem: an absent product image yields the
placeholder, and an absent variant image leaves `thumb_image` unwritten. -/
theorem c5_image_fallback_witness :
    aget [("sp.handle", VStr "h"),
      ("url", VStr "https://s/products/h"),
      ("thumb_image", VStr placeholder_url)] "thumb_image"
      = some (VStr placeholder_url) ∧
    aget [("sv.price", VStr "80"), ("price", VStr "80"),
      ("availability", VBool true), ("sv.availableForSale", VBool false)]
      "thumb_image" = aget [("sv.price", VStr "80")] "thumb_image" := by
  constructor
  · exact c5_image_fallback.1 "s" [("sp.handle", VStr "h")]
      [("sp.handle", VStr "h"), ("url", VStr "https://s/products/h"),
        ("thumb_image", VStr placeholder_url)] rfl (Or.inl rfl)
  · exact c5_image_fallback.2.2.2.2.2 [("sv.price", VStr "80")]
      [("sv.price", VStr "80"), ("price", VStr "80"),
        ("availability", VBool true), ("sv.availableForSale", VBool false)]
      rfl (Or.inl rfl)

end CatalogExport
